import Mathlib

/-!
Shallow embedding of the `ziti` package (collection.go, config.go).

The repository manages a concurrent registry (`SdkCollection`) of session
handles (`Context`, a Go interface with `GetId` and `Close`) keyed by identity
string, plus a configuration loader (`NewConfigFromFile`).

Modelling decisions:
* a Go `Context` interface value is modelled by a structure carrying an
  instance tag (`inst`, standing for Go interface identity: `valueInMap !=
  newValue` compares instances) and the string returned by `GetId`;
* the concurrent map `cmap.ConcurrentMap[string, Context]` is modelled by an
  association list with unique keys; each cmap call (`Upsert`, `Set`,
  `Remove`) is atomic (the library takes the shard lock for the whole call),
  so concurrency is modelled as interleavings of these atomic steps;
* `Close()` side effects are recorded in an instrumentation log `closed`
  listing every close call the collection performs, in order;
* file contents are modelled as parsed JSON values (`JValue`); the byte-source
  collaborator (`os.ReadFile`) is a parameter `fs : String → Option JValue`,
  the context factory (`ziti.NewContextWithOpts`, outside this package's two
  files) is a parameter, and the environment is a parameter `getenv`.
-/

namespace Ziti

/-- a Go `Context` interface value: `inst` is the interface identity (two
handles are the same Go value iff they agree on everything, in particular on
`inst`), `ident` is the string its `GetId` method returns. -/
structure Context where
  inst : Nat
  ident : String
deriving DecidableEq, Repr

/-- `ctx.GetId()` of the external Context interface. -/
def Context.GetId (c : Context) : String := c.ident

/-- lookup in the modelled concurrent map. -/
def mapGet : List (String × Context) → String → Option Context
  | [], _ => none
  | (k, v) :: rest, key => if k = key then some v else mapGet rest key

/-- deletion in the modelled concurrent map (cmap `Remove`). -/
def mapRemove : List (String × Context) → String → List (String × Context)
  | [], _ => []
  | (k, v) :: rest, key =>
    if k = key then mapRemove rest key else (k, v) :: mapRemove rest key

/-- overwrite in the modelled concurrent map (cmap `Set`): the key is bound to
exactly the new value afterwards. -/
def mapSet (m : List (String × Context)) (k : String) (v : Context) :
    List (String × Context) :=
  (k, v) :: mapRemove m k

/-- state of an `SdkCollection` (collection.go:14-17): `contexts` models the
field `contexts cmap.ConcurrentMap[string, Context]`, `ConfigTypes` the
exported field; `closed` is the instrumentation log of the `Close()` calls the
collection has performed (a side effect in Go, made explicit here). -/
structure SdkCollection where
  contexts : List (String × Context) := []
  ConfigTypes : List String := []
  closed : List Context := []
deriving DecidableEq, Repr

/-- `NewSdkCollection` (collection.go:20-24): a new empty collection. -/
def NewSdkCollection : SdkCollection := {}

/-- the atomic cmap `Upsert` call inside `SdkCollection.Add`
(collection.go:62-68): under the shard lock, read the current value, run the
callback — which calls `Close()` on an existing value that is a different
instance from the new one — and store the callback's result (always the new
value). -/
def SdkCollection.upsertStep (s : SdkCollection) (ctx : Context) : SdkCollection :=
  match mapGet s.contexts ctx.GetId with
  | some valueInMap =>
    if valueInMap ≠ ctx then
      { s with contexts := mapSet s.contexts ctx.GetId ctx
               closed := s.closed ++ [valueInMap] }
    else
      { s with contexts := mapSet s.contexts ctx.GetId ctx }
  | none => { s with contexts := mapSet s.contexts ctx.GetId ctx }

/-- the atomic cmap `Set` call inside `SdkCollection.Add` (collection.go:70). -/
def SdkCollection.setStep (s : SdkCollection) (ctx : Context) : SdkCollection :=
  { s with contexts := mapSet s.contexts ctx.GetId ctx }

/-- `SdkCollection.Add` (collection.go:61-71): the `Upsert` call (with its
close-a-distinct-existing-value callback) followed by a second `Set` of the
same key and value. Each of the two cmap calls is atomic; `Add` as a whole is
not. -/
def SdkCollection.Add (s : SdkCollection) (ctx : Context) : SdkCollection :=
  (s.upsertStep ctx).setStep ctx

/-- `SdkCollection.Remove` (collection.go:74-76): delete the entry under
`ctx.GetId()`; the context is not closed or altered. -/
def SdkCollection.Remove (s : SdkCollection) (ctx : Context) : SdkCollection :=
  { s with contexts := mapRemove s.contexts ctx.GetId }

/-- `SdkCollection.RemoveById` (collection.go:79-81). -/
def SdkCollection.RemoveById (s : SdkCollection) (id : String) : SdkCollection :=
  { s with contexts := mapRemove s.contexts id }

/-! ### Interleaving semantics for concurrent `Add` calls

A thread running `Add ctx` performs the two atomic steps
`[upsert ctx, set ctx]` in that order; a concurrent execution of several
`Add` calls is an interleaving of the threads' step sequences. -/

/-- one atomic cmap call performed by `SdkCollection.Add`. -/
inductive AddStep where
  | upsert (ctx : Context)
  | set (ctx : Context)
deriving DecidableEq, Repr

/-- execute one atomic step. -/
def execStep (s : SdkCollection) : AddStep → SdkCollection
  | .upsert ctx => s.upsertStep ctx
  | .set ctx => s.setStep ctx

/-- execute a schedule of atomic steps in order. -/
def execSched (s : SdkCollection) (ops : List AddStep) : SdkCollection :=
  ops.foldl execStep s

/-- the step sequence of one thread calling `Add ctx` (collection.go:61-71):
the atomic `Upsert`, then the atomic `Set`. -/
def addProgram (ctx : Context) : List AddStep := [.upsert ctx, .set ctx]

/-- `Interleave xs ys zs`: `zs` is an interleaving of `xs` and `ys`, each
thread's own order preserved. -/
inductive Interleave : List AddStep → List AddStep → List AddStep → Prop
  | nil : Interleave [] [] []
  | left {a : AddStep} {xs ys zs : List AddStep} :
      Interleave xs ys zs → Interleave (a :: xs) ys (a :: zs)
  | right {a : AddStep} {xs ys zs : List AddStep} :
      Interleave xs ys zs → Interleave xs (a :: ys) (a :: zs)

/-! ### Configuration loader (config.go) -/

/-- the external `identity.Config` struct, modelled by the fields the package
documents in the file-format comment of `NewConfigFromFile` (config.go:60-64):
`"id": { "cert": "...", "key": "..." }`. The Go zero value has empty strings. -/
structure IdentityConfig where
  cert : String := ""
  key : String := ""
deriving DecidableEq, Repr

/-- the canonical authentication material (`apis.Credentials`, an interface —
`none` models a nil interface value); when it is derived, it is derived from
an `IdentityConfig`. -/
inductive Credentials where
  | fromIdentity (idc : IdentityConfig)
deriving DecidableEq, Repr

/-- `Config` (config.go:29-44): `ZtAPI` tagged `json:"ztAPI"`, `ConfigTypes`
tagged `json:"configTypes"`, the legacy `ID` field tagged `json:"id"`, and
`Credentials` tagged `json:"-"` (never serialized, nil by default). -/
structure Config where
  ZtAPI : String := ""
  ConfigTypes : List String := []
  ID : IdentityConfig := {}
  Credentials : Option Credentials := none
deriving DecidableEq, Repr

/-- a structured JSON value, the shape file contents are parsed into. -/
inductive JValue where
  | null
  | str (s : String)
  | arr (xs : List JValue)
  | obj (fields : List (String × JValue))

/-- field lookup in a JSON object, last occurrence of the key winning, as in
Go's `encoding/json`. -/
def getField (fields : List (String × JValue)) (k : String) : Option JValue :=
  fields.foldl (fun acc p => if p.1 = k then some p.2 else acc) none

/-- the keys of a JSON object. -/
def jsonObjKeys : JValue → List String
  | .obj fields => fields.map Prod.fst
  | _ => []

/-- `json.Unmarshal` of one JSON value into a Go `string` field: an absent or
null value leaves the zero value `""`, a JSON string sets the field, any other
shape is an unmarshal error. -/
def decodeStringField : Option JValue → Option String
  | none => some ""
  | some .null => some ""
  | some (.str s) => some s
  | some _ => none

/-- `json.Unmarshal` of one JSON array element into a `string`. -/
def decodeStr : JValue → Option String
  | .str s => some s
  | .null => some ""
  | _ => none

/-- decode every element of a JSON array into a `string`, failing if any
element fails. -/
def decodeStrList : List JValue → Option (List String)
  | [] => some []
  | x :: xs =>
    match decodeStr x, decodeStrList xs with
    | some s, some rest => some (s :: rest)
    | _, _ => none

/-- `json.Unmarshal` into the `[]string` field `ConfigTypes`: absent or null
leaves the zero value, an array decodes elementwise, anything else errors. -/
def decodeStringList : Option JValue → Option (List String)
  | none => some []
  | some .null => some []
  | some (.arr xs) => decodeStrList xs
  | some _ => none

/-- `json.Unmarshal` into the `identity.Config` field `ID`: absent or null
leaves the zero value, an object decodes its `cert` and `key` fields (unknown
keys ignored), anything else errors. -/
def decodeIdentity : Option JValue → Option IdentityConfig
  | none => some {}
  | some .null => some {}
  | some (.obj fields) =>
    match decodeStringField (getField fields "cert"),
          decodeStringField (getField fields "key") with
    | some cert, some key => some { cert := cert, key := key }
    | _, _ => none
  | some _ => none

/-- `json.Unmarshal(conf, &c)` for `c : Config` (config.go:73-74): the payload
must be a JSON object; the tagged fields `ztAPI`, `configTypes`, `id` are
decoded, missing fields keep their zero values, and `Credentials` (tagged
`json:"-"`) is never touched, so it stays nil. This helper decodes the
fields of the JSON object. -/
def configUnmarshalObj (fields : List (String × JValue)) : Option Config :=
  match decodeStringField (getField fields "ztAPI"),
        decodeStringList (getField fields "configTypes"),
        decodeIdentity (getField fields "id") with
  | some ztAPI, some configTypes, some idc =>
    some { ZtAPI := ztAPI, ConfigTypes := configTypes, ID := idc,
           Credentials := none }
  | _, _, _ => none

/-- `json.Unmarshal(conf, &c)` for `c : Config` (config.go:73-74): the payload
must be a JSON object, whose fields are decoded by `configUnmarshalObj`. -/
def configUnmarshal : JValue → Option Config
  | .obj fields => configUnmarshalObj fields
  | _ => none

/-- `json.Marshal` of the external `identity.Config`, restricted to the
modelled fields. -/
def marshalIdentity (idc : IdentityConfig) : JValue :=
  .obj [("cert", .str idc.cert), ("key", .str idc.key)]

/-- `json.Marshal` of a `Config`: the tagged fields `ztAPI`, `configTypes`,
`id` are emitted; `Credentials` is tagged `json:"-"` and never emitted. -/
def configMarshal (c : Config) : JValue :=
  .obj [("ztAPI", .str c.ZtAPI),
        ("configTypes", .arr (c.ConfigTypes.map JValue.str)),
        ("id", marshalIdentity c.ID)]

/-- the two failure kinds of `NewConfigFromFile` (config.go:70 and
config.go:77): `notFound` models `errors.Errorf("config file (%s) is not
found", confFile)` from the failed read, `malformed` models
`errors.Errorf("failed to load ziti configuration (%s): %v", ...)` from the
failed unmarshal. -/
inductive LoadError where
  | notFound (confFile : String)
  | malformed (confFile : String)
deriving DecidableEq, Repr

/-- `NewConfigFromFile` (config.go:67-81): resolve the file through the
byte-source collaborator `fs` (contents modelled as parsed JSON values), then
unmarshal into a `Config`; the read failure and the unmarshal failure produce
the two distinct errors. -/
def NewConfigFromFile (fs : String → Option JValue) (confFile : String) :
    Except LoadError Config :=
  match fs confFile with
  | none => .error (.notFound confFile)
  | some conf =>
    match configUnmarshal conf with
    | none => .error (.malformed confFile)
    | some c => .ok c

/-! ### Context creation through the collection (collection.go:108-127) -/

/-- the `*Options` value passed through to the external factory, opaque to
this package. -/
inductive Options where
  | mk
deriving DecidableEq, Repr

/-- `SdkCollection.NewContextWithOpts` (collection.go:115-127). In Go `cfg`
is a `*Config`; the state-passing translation returns the config value the
caller's pointer holds after the call as the first component. The external
factory `ziti.NewContextWithOpts` (outside this package's files) is the
parameter `factory`; `none` is a creation failure. On success the new context
is stored via `Add` and returned. -/
def SdkCollection.NewContextWithOpts (s : SdkCollection) (cfg : Config)
    (factory : Config → Option Options → Option Context)
    (options : Option Options) :
    Config × SdkCollection × Option Context :=
  let cfg := { cfg with ConfigTypes := cfg.ConfigTypes ++ s.ConfigTypes }
  match factory cfg options with
  | none => (cfg, s, none)
  | some ctx => (cfg, s.Add ctx, some ctx)

/-- `SdkCollection.NewContext` (collection.go:109-111). -/
def SdkCollection.NewContext (s : SdkCollection) (cfg : Config)
    (factory : Config → Option Options → Option Context) :
    Config × SdkCollection × Option Context :=
  s.NewContextWithOpts cfg factory none

/-- helper for `splitSemi`: walk the characters, cutting at each `;`. -/
def splitSemiAux : List Char → List Char → List String
  | [], acc => [String.mk acc.reverse]
  | c :: rest, acc =>
    if c = ';' then String.mk acc.reverse :: splitSemiAux rest []
    else splitSemiAux rest (c :: acc)

/-- `strings.Split(envValue, ";")` (collection.go:33): the segments of the
string between `;` separators; the empty string yields `[""]`. -/
def splitSemi (s : String) : List String :=
  splitSemiAux s.data []

/-- the loop body of `NewSdkCollectionFromEnv` (collection.go:35-54) for one
entry of the split list: skip empty names, skip load failures (logged in Go),
skip creation failures (logged in Go); on success `NewContext` has already
stored the context. -/
def envStep (fs : String → Option JValue)
    (factory : Config → Option Options → Option Context)
    (collection : SdkCollection) (identityFile : String) : SdkCollection :=
  if identityFile = "" then collection
  else
    match NewConfigFromFile fs identityFile with
    | .error _ => collection
    | .ok cfg =>
      let r := collection.NewContext cfg factory
      match r.2.2 with
      | none => collection
      | some _ => r.2.1

/-- `NewSdkCollectionFromEnv` (collection.go:28-57): create an empty
collection, read the environment variable through the collaborator `getenv`,
split its value on `";"`, and run the per-entry loop. -/
def NewSdkCollectionFromEnv (getenv : String → String)
    (fs : String → Option JValue)
    (factory : Config → Option Options → Option Context)
    (envVariable : String) : SdkCollection :=
  let collection := NewSdkCollection
  let envValue := getenv envVariable
  let identityFiles := splitSemi envValue
  identityFiles.foldl (envStep fs factory) collection

/-- the outcome of one bootstrap entry, spec-side: a non-empty name whose
config loads and whose context creation succeeds yields that context (the
fresh collection's default `ConfigTypes` being empty, the factory sees the
loaded config unchanged); everything else is a skipped entry. -/
def envPick (fs : String → Option JValue)
    (factory : Config → Option Options → Option Context)
    (identityFile : String) : Option Context :=
  if identityFile = "" then none
  else
    match NewConfigFromFile fs identityFile with
    | .error _ => none
    | .ok cfg => factory cfg none

/-- the contexts that load and create successfully, in processing order: the
spec-side description of the entries `NewSdkCollectionFromEnv` keeps. -/
def envSuccesses (getenv : String → String)
    (fs : String → Option JValue)
    (factory : Config → Option Options → Option Context)
    (envVariable : String) : List Context :=
  (splitSemi (getenv envVariable)).filterMap (envPick fs factory)

/-- sequential bulk insertion: `Add` each context in order. -/
def insertAll (s : SdkCollection) (cs : List Context) : SdkCollection :=
  cs.foldl SdkCollection.Add s

/-! ### Map lemmas -/

theorem mapGet_mapRemove_self (m : List (String × Context)) (k : String) :
    mapGet (mapRemove m k) k = none := by
  induction m with
  | nil => rfl
  | cons p rest ih =>
    by_cases h : p.1 = k <;> simp [mapRemove, mapGet, h, ih]

theorem mapRemove_of_mapGet_none (m : List (String × Context)) (k : String)
    (h : mapGet m k = none) : mapRemove m k = m := by
  induction m with
  | nil => rfl
  | cons p rest ih =>
    by_cases hk : p.1 = k
    · simp [mapGet, hk] at h
    · simp [mapGet, hk] at h
      simp [mapRemove, hk, ih h]

theorem mapGet_mapSet_self (m : List (String × Context)) (k : String)
    (v : Context) : mapGet (mapSet m k v) k = some v := by
  simp [mapSet, mapGet]

theorem mapGet_mapRemove_ne (m : List (String × Context)) (k k' : String)
    (h : k ≠ k') : mapGet (mapRemove m k) k' = mapGet m k' := by
  induction m with
  | nil => rfl
  | cons p rest ih =>
    by_cases hk : p.1 = k
    · simp [mapRemove, mapGet, hk, ih, h]
    · by_cases hk' : p.1 = k' <;> simp [mapRemove, mapGet, hk, hk', ih, Ne.symm h]

theorem mapGet_mapSet_ne (m : List (String × Context)) (k k' : String)
    (v : Context) (h : k ≠ k') : mapGet (mapSet m k v) k' = mapGet m k' := by
  simp [mapSet, mapGet, h, mapGet_mapRemove_ne m k k' h]

/-! ### Claim theorems: sequential upsert and remove -/

/-- C4: `upsert(h1)` then `upsert(h2)` sequentially, with equal identities and
distinct instances (starting from a state with that identity unmapped), closes
`h1` exactly once, closes `h2` zero times, and a lookup by the identity then
returns `h2`. -/
theorem add_then_add_distinct_closes_once (s : SdkCollection) (h1 h2 : Context)
    (hid : h1.GetId = h2.GetId) (hne : h1 ≠ h2)
    (hfresh : mapGet s.contexts h1.GetId = none) :
    List.count h1 ((s.Add h1).Add h2).closed = List.count h1 s.closed + 1 ∧
    List.count h2 ((s.Add h1).Add h2).closed = List.count h2 s.closed ∧
    mapGet ((s.Add h1).Add h2).contexts h2.GetId = some h2 := by
  have hne2 : ¬ h1 = h2 := hne
  have hne3 : ¬ h2 = h1 := Ne.symm hne
  have e1 : s.Add h1 =
      { s with contexts := mapSet (mapSet s.contexts h1.GetId h1) h1.GetId h1 } := by
    simp [SdkCollection.Add, SdkCollection.upsertStep, SdkCollection.setStep, hfresh]
  have hget : mapGet (mapSet (mapSet s.contexts h1.GetId h1) h1.GetId h1) h2.GetId
      = some h1 := by
    rw [← hid, mapGet_mapSet_self]
  have e2 : (s.Add h1).Add h2 =
      { s with
        contexts := mapSet (mapSet (mapSet (mapSet s.contexts h1.GetId h1)
          h1.GetId h1) h2.GetId h2) h2.GetId h2
        closed := s.closed ++ [h1] } := by
    rw [e1]
    simp [SdkCollection.Add, SdkCollection.upsertStep, SdkCollection.setStep,
      hget, hne2]
  rw [e2]
  refine ⟨?_, ?_, ?_⟩
  · simp
  · simp [hne3]
  · exact mapGet_mapSet_self ..

theorem add_then_add_distinct_closes_once_witness :
    List.count (⟨1, "a"⟩ : Context)
        ((SdkCollection.Add (SdkCollection.Add {} ⟨1, "a"⟩) ⟨2, "a"⟩)).closed
      = List.count (⟨1, "a"⟩ : Context) ({} : SdkCollection).closed + 1 ∧
    List.count (⟨2, "a"⟩ : Context)
        ((SdkCollection.Add (SdkCollection.Add {} ⟨1, "a"⟩) ⟨2, "a"⟩)).closed
      = List.count (⟨2, "a"⟩ : Context) ({} : SdkCollection).closed ∧
    mapGet ((SdkCollection.Add (SdkCollection.Add {} ⟨1, "a"⟩) ⟨2, "a"⟩)).contexts
        (Context.GetId ⟨2, "a"⟩) = some ⟨2, "a"⟩ :=
  add_then_add_distinct_closes_once {} ⟨1, "a"⟩ ⟨2, "a"⟩ rfl (by decide) rfl

theorem add_contexts (s : SdkCollection) (h : Context) :
    (s.Add h).contexts = mapSet (s.upsertStep h).contexts h.GetId h := rfl

theorem mapGet_add_self (s : SdkCollection) (h : Context) :
    mapGet (s.Add h).contexts h.GetId = some h := mapGet_mapSet_self ..

theorem closed_add_of_same (s : SdkCollection) (h : Context)
    (hsame : mapGet s.contexts h.GetId = some h) : (s.Add h).closed = s.closed := by
  simp [SdkCollection.Add, SdkCollection.upsertStep, SdkCollection.setStep, hsame]

theorem count_closed_add_self (s : SdkCollection) (h : Context) :
    List.count h (s.Add h).closed = List.count h s.closed := by
  cases e : mapGet s.contexts h.GetId with
  | none =>
    simp [SdkCollection.Add, SdkCollection.upsertStep, SdkCollection.setStep, e]
  | some v =>
    by_cases hv : v = h
    · subst hv
      simp [SdkCollection.Add, SdkCollection.upsertStep, SdkCollection.setStep, e]
    · simp [SdkCollection.Add, SdkCollection.upsertStep, SdkCollection.setStep,
        e, hv, List.count_append]
      exact List.count_eq_zero.mpr (by simp [Ne.symm hv])

/-- C5: `upsert(h)` then `upsert(h)` with the same instance closes `h` zero
times, and the registry still maps `h`'s identity to `h`. -/
theorem add_same_instance_no_close (s : SdkCollection) (h : Context) :
    List.count h ((s.Add h).Add h).closed = List.count h s.closed ∧
    mapGet ((s.Add h).Add h).contexts h.GetId = some h := by
  have hc : ((s.Add h).Add h).closed = (s.Add h).closed :=
    closed_add_of_same (s.Add h) h (mapGet_add_self s h)
  exact ⟨by rw [hc]; exact count_closed_add_self s h, mapGet_add_self (s.Add h) h⟩

theorem add_same_instance_no_close_witness :
    List.count (⟨1, "a"⟩ : Context)
        ((SdkCollection.Add (SdkCollection.Add {} ⟨1, "a"⟩) ⟨1, "a"⟩)).closed
      = List.count (⟨1, "a"⟩ : Context) ({} : SdkCollection).closed ∧
    mapGet ((SdkCollection.Add (SdkCollection.Add {} ⟨1, "a"⟩) ⟨1, "a"⟩)).contexts
        (Context.GetId ⟨1, "a"⟩) = some ⟨1, "a"⟩ :=
  add_same_instance_no_close {} ⟨1, "a"⟩

/-- C9: `Remove` (and `RemoveById` on the same identity) deletes the mapping
for the handle's identity, never invokes `close()`, is a no-op when the
identity is absent, and `Remove h` after `Add h` leaves the registry without
`h` and `h` unclosed. -/
theorem remove_spec (s : SdkCollection) (h : Context) :
    (s.Remove h).closed = s.closed ∧
    s.RemoveById h.GetId = s.Remove h ∧
    mapGet (s.Remove h).contexts h.GetId = none ∧
    (mapGet s.contexts h.GetId = none → (s.Remove h).contexts = s.contexts) ∧
    mapGet ((s.Add h).Remove h).contexts h.GetId = none ∧
    List.count h ((s.Add h).Remove h).closed = List.count h s.closed := by
  refine ⟨rfl, rfl, mapGet_mapRemove_self .., fun hn => ?_,
    mapGet_mapRemove_self .., ?_⟩
  · exact mapRemove_of_mapGet_none _ _ hn
  · exact count_closed_add_self s h

theorem remove_spec_witness :
    (SdkCollection.Remove {} ⟨1, "a"⟩).contexts = ({} : SdkCollection).contexts :=
  (remove_spec {} ⟨1, "a"⟩).2.2.2.1 rfl

/-- C10: removal is keyed only by identity: `Remove ctx` deletes whatever
handle is stored under `ctx.GetId()` — even a distinct instance — and the
displaced stored handle is not closed. -/
theorem remove_keyed_by_identity (s : SdkCollection) (ctx other : Context)
    (hstored : mapGet s.contexts ctx.GetId = some other) :
    mapGet (s.Remove ctx).contexts ctx.GetId = none ∧
    (s.Remove ctx).closed = s.closed :=
  ⟨mapGet_mapRemove_self .., rfl⟩

theorem remove_keyed_by_identity_witness :
    mapGet (SdkCollection.Remove { contexts := [("a", ⟨2, "a"⟩)] } ⟨1, "a"⟩).contexts
        (Context.GetId ⟨1, "a"⟩) = none ∧
    (SdkCollection.Remove { contexts := [("a", ⟨2, "a"⟩)] } ⟨1, "a"⟩).closed
      = ({ contexts := [("a", ⟨2, "a"⟩)] } : SdkCollection).closed :=
  remove_keyed_by_identity { contexts := [("a", ⟨2, "a"⟩)] } ⟨1, "a"⟩ ⟨2, "a"⟩
    (by decide)

/-! ### Claim theorems: configuration loading and context creation -/

/-- C3 counterexample: the claim says the caller's `cfg.ConfigTypes` is
unchanged after `NewContextWithOpts`; with `cfg.ConfigTypes = ["a"]` and
collection `ConfigTypes = ["b"]` the caller's config holds `["a", "b"]` after
the call (collection.go:116 assigns the appended slice back into `cfg`). -/
theorem newContextWithOpts_mutation_counterexample :
    (SdkCollection.NewContextWithOpts { ConfigTypes := ["b"] }
        { ZtAPI := "", ConfigTypes := ["a"], ID := {}, Credentials := none }
        (fun _ _ => some ⟨1, "x"⟩) none).1.ConfigTypes ≠ ["a"] := by
  decide

/-- C3 amended: `NewContextWithOpts` appends the collection's `ConfigTypes`
in place onto `cfg.ConfigTypes`; the caller's cfg is mutated, and after the
call it holds exactly the original sequence followed by the collection's
defaults. -/
theorem newContextWithOpts_appends_to_cfg (s : SdkCollection) (cfg : Config)
    (factory : Config → Option Options → Option Context)
    (options : Option Options) :
    (s.NewContextWithOpts cfg factory options).1
      = { cfg with ConfigTypes := cfg.ConfigTypes ++ s.ConfigTypes } := by
  simp only [SdkCollection.NewContextWithOpts]
  cases factory { cfg with ConfigTypes := cfg.ConfigTypes ++ s.ConfigTypes }
    options <;> rfl

theorem newContextWithOpts_appends_to_cfg_witness :
    (SdkCollection.NewContextWithOpts { ConfigTypes := ["b"] }
        { ConfigTypes := ["a"] } (fun _ _ => none) none).1.ConfigTypes
      = ["a", "b"] := by
  rw [newContextWithOpts_appends_to_cfg]
  rfl

/-- a concrete configuration payload with a non-empty legacy `id` section and
no credential material. -/
def legacyPayload : JValue :=
  .obj [("ztAPI", .str "https://ctrl.example.com/edge/client/v1"),
        ("id", .obj [("cert", .str "certpem"), ("key", .str "keypem")])]

/-- a byte source resolving exactly one file name to `legacyPayload`. -/
def legacyFs : String → Option JValue :=
  fun f => if f = "ziti.json" then some legacyPayload else none

/-- the configuration `NewConfigFromFile` returns for `legacyPayload`. -/
def legacyLoaded : Config :=
  { ZtAPI := "https://ctrl.example.com/edge/client/v1", ConfigTypes := [],
    ID := { cert := "certpem", key := "keypem" }, Credentials := none }

/-- C2 counterexample: the payload carries a non-empty legacy `id` and no
credentials, the load succeeds, and the returned config's `Credentials` field
is still nil — the claimed load-time derivation does not happen in
`NewConfigFromFile`. -/
theorem newConfigFromFile_no_derivation_counterexample :
    NewConfigFromFile legacyFs "ziti.json" = .ok legacyLoaded ∧
    legacyLoaded.ID ≠ ({} : IdentityConfig) ∧
    legacyLoaded.Credentials = none := by
  refine ⟨rfl, by decide, rfl⟩

theorem configUnmarshal_credentials_none (v : JValue) (c : Config)
    (h : configUnmarshal v = some c) : c.Credentials = none := by
  cases v with
  | null => simp [configUnmarshal] at h
  | str s => simp [configUnmarshal] at h
  | arr xs => simp [configUnmarshal] at h
  | obj fields =>
    have h2 : configUnmarshalObj fields = some c := h
    unfold configUnmarshalObj at h2
    split at h2
    all_goals
      first
        | (simp only [Option.some.injEq] at h2
           subst h2
           rfl)
        | simp at h2

/-- C2 amended: `NewConfigFromFile` performs no credentials derivation at
load time: every successfully loaded configuration has `Credentials` unset
(nil); the legacy `ID` field is only parsed and preserved. -/
theorem newConfigFromFile_credentials_unset (fs : String → Option JValue)
    (confFile : String) (c : Config)
    (h : NewConfigFromFile fs confFile = .ok c) : c.Credentials = none := by
  unfold NewConfigFromFile at h
  cases e : fs confFile with
  | none => simp [e] at h
  | some conf =>
    cases e2 : configUnmarshal conf with
    | none => simp [e, e2] at h
    | some c0 =>
      simp [e, e2] at h
      subst h
      exact configUnmarshal_credentials_none conf c0 e2

theorem newConfigFromFile_credentials_unset_witness :
    legacyLoaded.Credentials = none :=
  newConfigFromFile_credentials_unset legacyFs "ziti.json" legacyLoaded rfl

/-- C7: `NewConfigFromFile` fails with the not-found error exactly when the
byte source cannot resolve the name, fails with the distinct malformed error
exactly when the resolved payload does not unmarshal into a `Config`, and
succeeds exactly when both steps succeed. -/
theorem newConfigFromFile_error_classification (fs : String → Option JValue)
    (confFile : String) :
    (NewConfigFromFile fs confFile = .error (.notFound confFile) ↔
      fs confFile = none) ∧
    (NewConfigFromFile fs confFile = .error (.malformed confFile) ↔
      ∃ conf, fs confFile = some conf ∧ configUnmarshal conf = none) ∧
    (∀ c : Config, NewConfigFromFile fs confFile = .ok c ↔
      ∃ conf, fs confFile = some conf ∧ configUnmarshal conf = some c) := by
  unfold NewConfigFromFile
  cases e : fs confFile with
  | none => simp
  | some conf =>
    cases e2 : configUnmarshal conf with
    | none => simp [e2]
    | some c0 => simp [e2]

theorem newConfigFromFile_error_classification_witness :
    NewConfigFromFile (fun _ => none) "missing.json"
      = .error (.notFound "missing.json") :=
  (newConfigFromFile_error_classification (fun _ => none) "missing.json").1.mpr
    rfl

theorem decodeStrList_map_str (l : List String) :
    decodeStrList (l.map JValue.str) = some l := by
  induction l with
  | nil => rfl
  | cons a rest ih => simp [decodeStrList, decodeStr, ih]

/-- C8: unmarshalling the marshalled form of any config round-trips `ZtAPI`
and `ConfigTypes` exactly (and `ID`, with `Credentials` nil), and the
marshalled form never contains a `credentials` key. -/
theorem config_marshal_roundtrip (c : Config) :
    configUnmarshal (configMarshal c)
      = some { ZtAPI := c.ZtAPI, ConfigTypes := c.ConfigTypes, ID := c.ID,
               Credentials := none } ∧
    jsonObjKeys (configMarshal c) = ["ztAPI", "configTypes", "id"] ∧
    "credentials" ∉ jsonObjKeys (configMarshal c) := by
  refine ⟨?_, rfl, ?_⟩
  · simp [configMarshal, configUnmarshal, configUnmarshalObj, marshalIdentity,
      getField, decodeStringField, decodeStringList, decodeIdentity,
      decodeStrList_map_str]
  · simp [configMarshal, jsonObjKeys]

theorem config_marshal_roundtrip_witness :
    configUnmarshal (configMarshal
        { ZtAPI := "z", ConfigTypes := ["t"],
          ID := { cert := "c", key := "k" }, Credentials := none })
      = some { ZtAPI := "z", ConfigTypes := ["t"],
               ID := { cert := "c", key := "k" }, Credentials := none } :=
  (config_marshal_roundtrip
    { ZtAPI := "z", ConfigTypes := ["t"],
      ID := { cert := "c", key := "k" }, Credentials := none }).1

/-! ### Claim theorems: concurrent Add on one identity -/

/-- three distinct handles all reporting the same identity. -/
def raceH1 : Context := ⟨1, "id"⟩

def raceH2 : Context := ⟨2, "id"⟩

def raceH3 : Context := ⟨3, "id"⟩

/-- one interleaving of the three `Add` bodies: thread 1 and thread 2 run
their `Upsert`s, thread 1 then runs its trailing `Set` (reinstating its
already-closed handle), thread 3 runs its `Upsert` (closing that handle a
second time) and its `Set`, and thread 2's trailing `Set` lands last. -/
def raceSched : List AddStep :=
  [.upsert raceH1, .upsert raceH2, .set raceH1,
   .upsert raceH3, .set raceH3, .set raceH2]

/-- C1: a valid interleaving of three concurrent `Add` calls with three
distinct handles of one identity under which the code closes the first handle
twice and never closes the displaced third handle: the second cmap `Set`
issued by `Add` (collection.go:70) reinstates a handle the `Upsert` callback
has already closed, and the next `Upsert` closes it again. The final lookup
yields the second handle, so the third is displaced yet unclosed. -/
theorem concurrent_add_double_close :
    (∃ w, Interleave (addProgram raceH1) (addProgram raceH2) w ∧
          Interleave w (addProgram raceH3) raceSched) ∧
    (execSched NewSdkCollection raceSched).closed = [raceH1, raceH1] ∧
    List.count raceH1 (execSched NewSdkCollection raceSched).closed = 2 ∧
    List.count raceH3 (execSched NewSdkCollection raceSched).closed = 0 ∧
    mapGet (execSched NewSdkCollection raceSched).contexts "id" = some raceH2 ∧
    raceH3 ≠ raceH2 := by
  refine ⟨⟨[.upsert raceH1, .upsert raceH2, .set raceH1, .set raceH2],
    ?_, ?_⟩, by decide, by decide, by decide, by decide, by decide⟩
  · exact .left (.right (.left (.right .nil)))
  · exact .left (.left (.left (.right (.right (.left .nil)))))

/-! ### Claim theorems: environment bootstrap -/

theorem upsertStep_contexts (s : SdkCollection) (a : Context) :
    (s.upsertStep a).contexts = mapSet s.contexts a.GetId a := by
  cases e : mapGet s.contexts a.GetId with
  | none => simp [SdkCollection.upsertStep, e]
  | some v => by_cases hv : v = a <;> simp [SdkCollection.upsertStep, e, hv]

theorem upsertStep_ConfigTypes (s : SdkCollection) (a : Context) :
    (s.upsertStep a).ConfigTypes = s.ConfigTypes := by
  cases e : mapGet s.contexts a.GetId with
  | none => simp [SdkCollection.upsertStep, e]
  | some v => by_cases hv : v = a <;> simp [SdkCollection.upsertStep, e, hv]

theorem add_ConfigTypes (s : SdkCollection) (a : Context) :
    (s.Add a).ConfigTypes = s.ConfigTypes :=
  upsertStep_ConfigTypes s a

theorem mapGet_add_ne (s : SdkCollection) (a : Context) (id : String)
    (h : a.GetId ≠ id) :
    mapGet (s.Add a).contexts id = mapGet s.contexts id := by
  rw [add_contexts, upsertStep_contexts, mapGet_mapSet_ne _ _ _ _ h,
    mapGet_mapSet_ne _ _ _ _ h]

theorem merge_nil_configTypes (cfg : Config) :
    { cfg with ConfigTypes := cfg.ConfigTypes ++ [] } = cfg := by
  cases cfg
  simp

theorem envFold_eq (fs : String → Option JValue)
    (factory : Config → Option Options → Option Context)
    (files : List String) (s : SdkCollection) (hct : s.ConfigTypes = []) :
    files.foldl (envStep fs factory) s
      = insertAll s (files.filterMap (envPick fs factory)) := by
  induction files generalizing s with
  | nil => rfl
  | cons f rest ih =>
    rw [List.foldl_cons, List.filterMap_cons]
    have hstep : envStep fs factory s f =
        match envPick fs factory f with
        | none => s
        | some ctx => s.Add ctx := by
      unfold envStep envPick
      by_cases hf : f = ""
      · simp [hf]
      · simp only [hf, ite_false, if_neg, not_false_iff]
        cases e : NewConfigFromFile fs f with
        | error err => simp
        | ok cfg =>
          simp only [SdkCollection.NewContext, SdkCollection.NewContextWithOpts,
            hct]
          rw [merge_nil_configTypes]
          cases e2 : factory cfg none <;> simp
    rw [hstep]
    cases ep : envPick fs factory f with
    | none => simpa using ih s hct
    | some ctx =>
      simp only [insertAll, List.foldl_cons]
      exact ih (s.Add ctx) (by rw [add_ConfigTypes]; exact hct)

theorem mapGet_insertAll_mem (s : SdkCollection) (cs : List Context)
    (id : String) (ctx : Context)
    (h : mapGet (insertAll s cs).contexts id = some ctx) :
    ctx ∈ cs ∨ mapGet s.contexts id = some ctx := by
  induction cs generalizing s with
  | nil => exact Or.inr h
  | cons a rest ih =>
    rcases ih (s.Add a) h with hm | hg
    · exact Or.inl (List.mem_cons_of_mem a hm)
    · by_cases hid : a.GetId = id
      · rw [← hid, mapGet_add_self] at hg
        have ha : a = ctx := Option.some.inj hg
        exact Or.inl (by rw [← ha]; exact List.mem_cons_self a rest)
      · rw [mapGet_add_ne s a id hid] at hg
        exact Or.inr hg

theorem mapGet_insertAll_isSome (s : SdkCollection) (cs : List Context)
    (id : String) (h : (mapGet s.contexts id).isSome) :
    (mapGet (insertAll s cs).contexts id).isSome := by
  induction cs generalizing s with
  | nil => exact h
  | cons a rest ih =>
    apply ih
    by_cases hid : a.GetId = id
    · rw [← hid, mapGet_add_self]
      rfl
    · rw [mapGet_add_ne s a id hid]
      exact h

theorem mapGet_insertAll_present (s : SdkCollection) (cs : List Context)
    (ctx : Context) (h : ctx ∈ cs) :
    (mapGet (insertAll s cs).contexts ctx.GetId).isSome := by
  induction cs generalizing s with
  | nil => cases h
  | cons a rest ih =>
    by_cases hm : ctx ∈ rest
    · exact ih (s.Add a) hm
    · have ha : ctx = a := by
        rcases List.mem_cons.mp h with h1 | h2
        · exact h1
        · exact absurd h2 hm
      subst ha
      exact mapGet_insertAll_isSome (s.Add ctx) rest ctx.GetId
        (by rw [mapGet_add_self]; rfl)

/-- C6: the environment bootstrap never fails: it returns exactly the
sequential insertion of the successfully loaded-and-created entries (empty
segments and per-entry failures skipped), an empty valid collection when no
entry succeeds; every stored handle is one of the successes, and every
success's identity is present in the result. -/
theorem newSdkCollectionFromEnv_spec (getenv : String → String)
    (fs : String → Option JValue)
    (factory : Config → Option Options → Option Context)
    (envVariable : String) :
    NewSdkCollectionFromEnv getenv fs factory envVariable
      = insertAll NewSdkCollection (envSuccesses getenv fs factory envVariable) ∧
    (envSuccesses getenv fs factory envVariable = [] →
      NewSdkCollectionFromEnv getenv fs factory envVariable = NewSdkCollection) ∧
    (∀ id ctx,
      mapGet (NewSdkCollectionFromEnv getenv fs factory envVariable).contexts id
          = some ctx →
        ctx ∈ envSuccesses getenv fs factory envVariable) ∧
    (∀ ctx, ctx ∈ envSuccesses getenv fs factory envVariable →
      (mapGet (NewSdkCollectionFromEnv getenv fs factory envVariable).contexts
        ctx.GetId).isSome) := by
  have hmain : NewSdkCollectionFromEnv getenv fs factory envVariable
      = insertAll NewSdkCollection (envSuccesses getenv fs factory envVariable) := by
    unfold NewSdkCollectionFromEnv envSuccesses
    exact envFold_eq fs factory _ NewSdkCollection rfl
  refine ⟨hmain, ?_, ?_, ?_⟩
  · intro he
    rw [hmain, he]
    rfl
  · intro id ctx h
    rw [hmain] at h
    rcases mapGet_insertAll_mem NewSdkCollection _ id ctx h with hm | hg
    · exact hm
    · simp [NewSdkCollection, mapGet] at hg
  · intro ctx hm
    rw [hmain]
    exact mapGet_insertAll_present NewSdkCollection _ ctx hm

theorem newSdkCollectionFromEnv_spec_witness :
    NewSdkCollectionFromEnv (fun _ => "") (fun _ => none) (fun _ _ => none)
        "ZITI_IDENTITIES" = NewSdkCollection :=
  (newSdkCollectionFromEnv_spec (fun _ => "") (fun _ => none) (fun _ _ => none)
    "ZITI_IDENTITIES").2.1 rfl

end Ziti
